import Mathlib

/-!
Verification of the resume-screening pipeline core
(repository `Resume_screening_agent`).

Each definition below is a shallow embedding of a function of the
repository's Python source; the file header comment of each definition
names the source function it embeds.  External collaborators (the LLM,
web search, GitHub, the skill taxonomy) are modelled as explicit oracle
arguments so that every definition is a pure, executable Lean function.
Scores and confidences are modelled as rationals: every comparison the
claims depend on involves exactly representable values, so the ordering
facts proved here coincide with the Python float comparisons.
-/

namespace ResumeScreening

/-! ## Conditional router (`src/agents/graph/graph_enhanced.py`, `should_reanalyze`) -/

/-- The two labels `should_reanalyze` can return.  `cont` models the
Python string label `"continue"`. -/
inductive Route where
  | reanalyze
  | cont
  deriving Repr, DecidableEq

/-- Embeds `should_reanalyze` (graph_enhanced.py lines 28-54).
`needs` is `state.get("quality_check", {}).get("needs_reanalysis", False)`
and `count` is `state.get("reanalysis_count", 0)`. -/
def shouldReanalyze (needs : Bool) (count : Nat) : Route :=
  if needs && decide (count < 2) then Route.reanalyze else Route.cont

/-- Quality threshold `QualityChecker.confidence_threshold = 0.7`. -/
def confidenceThreshold : ℚ := 7/10

/-- Embeds the `needs_reanalysis` computation of
`QualityChecker.check_quality` (quality_checker.py lines 94-98):
`overall_confidence < self.confidence_threshold and reanalysis_count < 2`. -/
def checkQualityNeeds (overallConfidence : ℚ) (count : Nat) : Bool :=
  decide (overallConfidence < confidenceThreshold) && decide (count < 2)

/-- Embeds the counter update of `quality_checker_node`
(quality_checker.py lines 323-326): the count is incremented exactly when
the verdict requests reanalysis. -/
def qualityCheckerCount (needs : Bool) (count : Nat) : Nat :=
  if needs then count + 1 else count

/-- One run of the quality-gate loop of the enhanced graph.  `confs` is
the stream of overall-confidence values produced by the successive
quality-check evaluations; the result is the number of times the router
returns the `reanalyze` label before it returns `continue` (or the
stream ends).  Each iteration follows the source order: the
quality-checker node computes the verdict and increments the counter
(quality_checker.py lines 314-332), its partial state is merged, then
the router reads the merged state (graph_enhanced.py lines 28-54). -/
def qualityLoopCount : List ℚ → Nat → Nat
  | [], _ => 0
  | conf :: rest, count =>
    let needs := checkQualityNeeds conf count
    let count' := qualityCheckerCount needs count
    match shouldReanalyze needs count' with
    | Route.reanalyze => 1 + qualityLoopCount rest count'
    | Route.cont => 0

/-! ## LLM self-reflection fallback (`quality_checker.py`, `_llm_self_reflection`) -/

/-- The structured reflection payload `_llm_self_reflection` returns. -/
structure Reflection where
  overall_confidence : ℚ
  issues : List String
  recommendations : List String
  deriving Repr, DecidableEq

/-- Outcome of the self-reflection LLM call: either a parsed payload or
any raised exception. -/
inductive ReflectOutcome where
  | ok (r : Reflection)
  | exn
  deriving Repr, DecidableEq

/-- Embeds the `except` fallback of `_llm_self_reflection`
(quality_checker.py lines 265-272): confidence 0.7, no issues, no
recommendations. -/
def llmSelfReflectionFallback : Reflection :=
  { overall_confidence := 7/10, issues := [], recommendations := [] }

/-- Embeds `_llm_self_reflection` (quality_checker.py lines 219-272): the
parsed payload on success, the fixed fallback on any exception. -/
def llmSelfReflection (outcome : ReflectOutcome) : Reflection :=
  match outcome with
  | ReflectOutcome.ok r => r
  | ReflectOutcome.exn => llmSelfReflectionFallback

/-! ## Scoring and ranking (`src/agents/nodes/scorer.py`, `score_and_rank_candidates`) -/

/-- The fields of a `CandidateScore` the ranking step reads: the
candidate's name (identity) and the weighted total score.  The remaining
fields (component scores, free-text analysis) do not influence the sort
(scorer.py line 74 sorts on `total_score` alone). -/
structure CandidateTotal where
  candidate_name : String
  total_score : ℚ
  deriving Repr, DecidableEq

/-- One step of `candidate_scores.sort(key=lambda x: x.total_score,
reverse=True)` (scorer.py line 74).  Python's `list.sort` is stable, so
an element is placed before the first later-in-input element whose score
does not exceed it; this insertion realises exactly that order. -/
def insertByScore (x : CandidateTotal) : List CandidateTotal → List CandidateTotal
  | [] => [x]
  | y :: ys =>
    if y.total_score ≤ x.total_score then x :: y :: ys else y :: insertByScore x ys

/-- The stable descending sort of scorer.py line 74 (insertion sort is
extensionally equal to any stable sort by the same key). -/
def sortByScoreDesc : List CandidateTotal → List CandidateTotal
  | [] => []
  | x :: xs => insertByScore x (sortByScoreDesc xs)

/-- Embeds `enumerate(candidate_scores, 1)` of scorer.py line 78: ranks
are attached in list order starting from `r`. -/
def attachRanks : Nat → List CandidateTotal → List (Nat × CandidateTotal)
  | _, [] => []
  | r, s :: ss => (r, s) :: attachRanks (r + 1) ss

/-- Embeds the sort-and-rank portion of `score_and_rank_candidates`
(scorer.py lines 73-93): sort all candidate scores by total score
descending (stable), then attach ranks 1..n in that order.  The
per-rank LLM comparison note does not affect order or rank. -/
def scoreAndRankCandidates (scores : List CandidateTotal) : List (Nat × CandidateTotal) :=
  attachRanks 1 (sortByScoreDesc scores)

/-! ## Spec-modelled merge engine and the state schema (`src/state/state.py`) -/

/-- The two merge rules of §4.1 of the spec: replace or append. -/
inductive MergeRule where
  | replace
  | append
  deriving Repr, DecidableEq

/-- A declared state field: its key and its merge rule. -/
structure SchemaField where
  name : String
  rule : MergeRule
  deriving Repr, DecidableEq

/-- Embeds the `AgentState` schema (src/state/state.py lines 6-43).
Fields annotated `Annotated[..., operator.add]` carry the append rule
(`candidates`, `conversation_history`, `errors`); every other field is
replaced. -/
def agentStateSchema : List SchemaField :=
  [⟨"job_description", MergeRule.replace⟩,
   ⟨"resumes", MergeRule.replace⟩,
   ⟨"resume_filenames", MergeRule.replace⟩,
   ⟨"job_requirements", MergeRule.replace⟩,
   ⟨"candidates", MergeRule.append⟩,
   ⟨"skill_scores", MergeRule.replace⟩,
   ⟨"experience_scores", MergeRule.replace⟩,
   ⟨"education_scores", MergeRule.replace⟩,
   ⟨"candidate_scores", MergeRule.replace⟩,
   ⟨"ranked_candidates", MergeRule.replace⟩,
   ⟨"report", MergeRule.replace⟩,
   ⟨"interview_questions", MergeRule.replace⟩,
   ⟨"user_question", MergeRule.replace⟩,
   ⟨"agent_response", MergeRule.replace⟩,
   ⟨"conversation_history", MergeRule.append⟩,
   ⟨"current_step", MergeRule.replace⟩,
   ⟨"errors", MergeRule.append⟩]

/-- The declared key set of a schema. -/
def schemaKeys (schema : List SchemaField) : List String :=
  schema.map (fun f => f.name)

/-- A state (or a stage's partial update) as an association list from
keys to values; a value is modelled as a list of opaque strings so that
both merge rules are expressible. -/
abbrev StateMap : Type := List (String × List String)

/-- Replace or extend the value stored under `k`. -/
def updateOrInsert (st : StateMap) (k : String) (f : List String → List String) :
    StateMap :=
  if (List.any st (fun p => p.1 == k)) then
    List.map (fun p => if p.1 == k then (p.1, f p.2) else p) st
  else
    st ++ [(k, f [])]

/-- Fold one declared field of a stage update into the state. -/
def mergeField (st : StateMap) (kv : String × List String) : MergeRule → StateMap
  | MergeRule.replace => updateOrInsert st kv.1 (fun _ => kv.2)
  | MergeRule.append => updateOrInsert st kv.1 (fun old => old ++ kv.2)

/-- Modelled from the spec: the merge engine `apply(state, partial)` of
§4.1.  The engine itself lives in the langgraph dependency, not in this
repository's source tree; the spec fixes its contract: for every key of
the stage update apply that key's declared merge rule, leave other keys
untouched, and fail fast (abort the run) when the update holds a key the
schema does not declare. -/
def specApply (schema : List SchemaField) (st : StateMap) :
    StateMap → Except String StateMap
  | [] => Except.ok st
  | kv :: rest =>
    match List.find? (fun f => f.name == kv.1) schema with
    | none => Except.error ("schema violation: unknown key " ++ kv.1)
    | some f => specApply schema (mergeField st kv f.rule) rest

/-- The partial state returned by `quality_checker_node`
(quality_checker.py lines 328-332): the keys `quality_check`,
`reanalysis_count` and `current_step`, in that order. -/
def qualityCheckerUpdate (qc rc cs : List String) : StateMap :=
  [("quality_check", qc), ("reanalysis_count", rc), ("current_step", cs)]

/-! ## Tool coordinator (`src/agents/nodes/tool_coordinator.py`) -/

/-- The fixed tool enumeration `valid_tools`
(tool_coordinator.py line 116). -/
def validTools : List String := ["web_search", "github", "skill_taxonomy"]

/-- A per-candidate tool plan entry (tool_coordinator.py lines 38-44,
124-128). -/
structure ToolPlanEntry where
  tools : List String
  reasoning : String
  priority : String
  deriving Repr, DecidableEq

/-- Outcome of the tool-selection LLM call for one candidate: either a
parsed plan of arbitrary content, or any raised exception (network
failure, unparseable JSON, a payload of the wrong shape). -/
inductive PlanOutcome where
  | ok (p : ToolPlanEntry)
  | exn
  deriving Repr, DecidableEq

/-- Embeds `ToolCoordinator._decide_tools_for_candidate`
(tool_coordinator.py lines 97-128): on success the parsed plan's tools
list is filtered against the fixed enumeration before being stored; on
any failure the conservative default plan is returned. -/
def decideToolsForCandidate (outcome : PlanOutcome) : ToolPlanEntry :=
  match outcome with
  | PlanOutcome.ok p => { p with tools := p.tools.filter (fun t => decide (t ∈ validTools)) }
  | PlanOutcome.exn =>
    { tools := ["skill_taxonomy"],
      reasoning := "Using default tool set due to planning error",
      priority := "medium" }

/-! ## Fallback skill matching (`src/agents/nodes/skill_matcher.py`) -/

/-- `str.lower()`: lowercase every character.  (Defined on the string's
character list rather than through `String.toLower`, whose well-founded
recursion the kernel cannot evaluate; on the ASCII strings involved the
two agree.) -/
def lowerStr (s : String) : String := String.mk (s.data.map Char.toLower)

/-- `round(x, 1)` on the exact rationals used here.  (Python rounds
floats with banker's rounding; at every value the claims touch the two
agree, and in fact rounding is the identity there.) -/
def round1 (q : ℚ) : ℚ := (round (q * 10) : ℤ) / 10

/-- The fields of the fallback `SkillScore` the scenario reads
(skill_matcher.py lines 142-153). -/
structure FallbackSkillScore where
  matched_must_have : List String
  missing_must_have : List String
  must_have_match_percentage : ℚ
  overall_skill_score : ℚ
  deriving Repr, DecidableEq

/-- Embeds `SkillMatcher._fallback_matching` (skill_matcher.py lines
117-153).  `candidateSkills` is `candidate.all_skills`; `mustHave` holds
the names of the job's must-have skills.  Both sides are lowercased
before the exact string comparison. -/
def fallbackMatching (candidateSkills : List String) (mustHave : List String) :
    FallbackSkillScore :=
  let cset := candidateSkills.map (fun s => lowerStr s)
  let matched := mustHave.filter (fun s => decide (lowerStr s ∈ cset))
  let missing := mustHave.filter (fun s => decide (¬ lowerStr s ∈ cset))
  let pct : ℚ :=
    if mustHave.isEmpty then 100
    else (matched.length : ℚ) / (mustHave.length : ℚ) * 100
  { matched_must_have := matched,
    missing_must_have := missing,
    must_have_match_percentage := round1 pct,
    overall_skill_score := round1 (pct * (8/10)) }

/-- Scoring weight `settings.SKILL_WEIGHT = 0.5` (config/settings.py). -/
def skillWeight : ℚ := 1/2

/-- Scoring weight `settings.EXPERIENCE_WEIGHT = 0.3`. -/
def experienceWeight : ℚ := 3/10

/-- Scoring weight `settings.EDUCATION_WEIGHT = 0.2`. -/
def educationWeight : ℚ := 1/5

/-- Embeds the weighted total of `CandidateScorer._score_candidate`
(scorer.py lines 112-118 and 144): skill, experience and education
component scores weighted 0.5 / 0.3 / 0.2 and rounded to one decimal. -/
def totalScore (skill exp edu : ℚ) : ℚ :=
  round1 (skill * skillWeight + exp * experienceWeight + edu * educationWeight)

/-! ## Resume parsing placeholders (`src/agents/nodes/resume_parser.py`) -/

/-- The candidate fields the placeholder claim reads. -/
structure ParsedCandidate where
  name : String
  resume_file_name : Option String
  deriving Repr, DecidableEq

/-- Embeds `ResumeParser._create_empty_candidate` (resume_parser.py
lines 199-204). -/
def createEmptyCandidate (filename : String) : ParsedCandidate :=
  { name := "Unknown (" ++ filename ++ ")", resume_file_name := some filename }

/-- Outcome of the LLM-backed parsing path of `parse_resume` for a
document whose extracted text passed the near-empty check: the parsed
candidate, or any raised exception (caught per document in
`resume_parser_node`). -/
inductive ParseOutcome where
  | ok (c : ParsedCandidate)
  | exn
  deriving Repr, DecidableEq

/-- Embeds `ResumeParser.parse_resume` (resume_parser.py lines 20-65)
composed with the per-document exception handling of
`resume_parser_node` (lines 222-230).  `extracted` is the text the PDF
extractor returned (`none` for a falsy result).  If the text is absent
or shorter than 100 characters, the explicit placeholder candidate is
substituted; otherwise the LLM parsing path runs, any exception again
yielding the placeholder. -/
def parseDocument (extracted : Option String) (filename : String)
    (llmOutcome : ParseOutcome) : ParsedCandidate :=
  match extracted with
  | none => createEmptyCandidate filename
  | some t =>
    if t.length < 100 then createEmptyCandidate filename
    else
      match llmOutcome with
      | ParseOutcome.ok c => c
      | ParseOutcome.exn => createEmptyCandidate filename

/-- Embeds the loop of `resume_parser_node` (resume_parser.py lines
216-237) over `zip(resumes, filenames)`: one candidate per document,
placeholders included, the run continuing for the remaining documents. -/
def resumeParserNode (docs : List (Option String × String × ParseOutcome)) :
    List ParsedCandidate :=
  docs.map (fun d => parseDocument d.1 d.2.1 d.2.2)

/-! ## CLI entry validation (`src/scripts/run_enhanced_agent.py`) -/

/-- One `--resumes` argument of the CLI: the path, whether the file
exists, and (when it exists) its bytes, modelled as a string. -/
structure ResumeFile where
  path : String
  fileExists : Bool
  content : String
  deriving Repr, DecidableEq

/-- Embeds `load_resumes` (run_enhanced_agent.py lines 26-46): missing
files are skipped with a warning; the rest are loaded in order. -/
def loadResumes (paths : List ResumeFile) : List String × List String :=
  ((paths.filter (fun p => p.fileExists)).map (fun p => p.content),
   (paths.filter (fun p => p.fileExists)).map (fun p => p.path))

/-- The initial state `main` seeds the enhanced graph with
(run_enhanced_agent.py lines 241-248). -/
structure InitialState where
  job_description : String
  resumes : List String
  resume_filenames : List String
  candidates : List ParsedCandidate
  errors : List String
  reanalysis_count : Nat
  deriving Repr, DecidableEq

/-- The fatal validation errors of `main` (both reported via
`sys.exit(1)`). -/
inductive CliError where
  | jobFileNotFound
  | noValidResumes
  deriving Repr, DecidableEq

/-- Embeds the validation prefix of `main` (run_enhanced_agent.py lines
211-248) up to the point where the compiled graph would be invoked: if
the job-description file is missing, exit fatally (lines 212-214); load
the resumes and, if none could be loaded, exit fatally (lines 234-236);
otherwise return the initial state handed to `app.invoke` (lines
241-258).  The pipeline is invoked only on the `ok` branch, so a fatal
error means no stage runs and no partial state exists. -/
def mainPrepare (jobFileExists : Bool) (jobText : String)
    (resumeArgs : List ResumeFile) : Except CliError InitialState :=
  if !jobFileExists then Except.error CliError.jobFileNotFound
  else
    let loaded := loadResumes resumeArgs
    if loaded.1.isEmpty then Except.error CliError.noValidResumes
    else
      Except.ok
        { job_description := jobText,
          resumes := loaded.1,
          resume_filenames := loaded.2,
          candidates := [],
          errors := [],
          reanalysis_count := 0 }

/-! ## Enrichment executor and caches
(`src/agents/nodes/candidate_enricher.py`, `src/tools/web_search.py`) -/

/-- Association-list lookup: Python dict membership test plus indexing
over an insertion-ordered mapping. -/
def lookupA {α : Type} : List (String × α) → String → Option α
  | [], _ => none
  | p :: l, k => if p.1 = k then some p.2 else lookupA l k

/-- The company record `WebSearchTool.search_company` returns; only the
fields the claims read are kept: the `exists` flag and the description
(web_search.py lines 50-56, 81-87, 97-103). -/
structure CompanyResult where
  companyExists : Bool
  description : String
  deriving Repr, DecidableEq

/-- Outcome of the one external DuckDuckGo call inside `search_company`:
a non-empty result list (summarised by its combined body text), an empty
result list, or a raised exception. -/
inductive SearchOutcome where
  | results (body : String)
  | empty
  | err (msg : String)
  deriving Repr, DecidableEq

/-- Tool-level state of `WebSearchTool`: its own cache (web_search.py
line 17) and the log of external calls made, in order; each log entry is
the `company_name` handed to the DuckDuckGo query. -/
structure WebSearchState where
  toolCache : List (String × CompanyResult)
  calls : List String
  deriving Repr, DecidableEq

/-- Embeds `WebSearchTool.search_company` (web_search.py lines 19-103):
check the tool cache under `"company:" + company_name.lower()`; on a
miss make the one external call; a successful lookup is stored in the
tool cache, while an empty result (lines 49-56) and an exception (lines
95-103) are returned as explicit results without being stored. -/
def searchCompany (oracle : String → SearchOutcome) (name : String)
    (ws : WebSearchState) : CompanyResult × WebSearchState :=
  match lookupA ws.toolCache ("company:" ++ lowerStr name) with
  | some r => (r, ws)
  | none =>
    match oracle name with
    | SearchOutcome.results body =>
      (⟨true, body⟩,
       ⟨ws.toolCache ++ [("company:" ++ lowerStr name, ⟨true, body⟩)], ws.calls ++ [name]⟩)
    | SearchOutcome.empty =>
      (⟨false, "No information found"⟩, ⟨ws.toolCache, ws.calls ++ [name]⟩)
    | SearchOutcome.err msg =>
      (⟨false, "Search error: " ++ msg⟩, ⟨ws.toolCache, ws.calls ++ [name]⟩)

/-- The per-candidate inputs the enrichment stage reads:
`candidate["name"]`, the `company` field of each work-experience entry,
`candidate.get("github_url")` and `candidate.get("technical_skills")`. -/
structure EnrichCandidate where
  name : String
  workCompanies : List (Option String)
  githubUrl : Option String
  technicalSkills : List String
  deriving Repr, DecidableEq

/-- State of one `CandidateEnricher` (candidate_enricher.py lines
18-23): the three run-scoped caches, the embedded web-search tool state,
and the logs of GitHub-analyzer and skill-taxonomy invocations (each log
entry is the argument the external tool was invoked with). -/
structure EnricherState where
  companiesCache : List (String × CompanyResult)
  githubCache : List (String × String)
  skillsCache : List (String × String)
  web : WebSearchState
  githubCalls : List String
  skillCalls : List String
  deriving Repr, DecidableEq

/-- The fresh enricher `candidate_enricher_node` constructs per run
(candidate_enricher.py line 166). -/
def initEnricherState : EnricherState := ⟨[], [], [], ⟨[], []⟩, [], []⟩

/-- Embeds one iteration of the company loop of
`CandidateEnricher._run_web_search` (candidate_enricher.py lines
98-113): skip entries without a company name, serve the run-scoped
companies cache on a hit, and otherwise call `search_company`, storing
the result — failures included — in the companies cache. -/
def runWebSearchStep (oracle : String → SearchOutcome)
    (acc : List (String × CompanyResult) × EnricherState) (c : Option String) :
    List (String × CompanyResult) × EnricherState :=
  match c with
  | none => acc
  | some name =>
    match lookupA acc.2.companiesCache name with
    | some r => (acc.1 ++ [(name, r)], acc.2)
    | none =>
      let call := searchCompany oracle name acc.2.web
      (acc.1 ++ [(name, call.1)],
       { acc.2 with
          companiesCache := acc.2.companiesCache ++ [(name, call.1)],
          web := call.2 })

/-- Embeds `CandidateEnricher._run_web_search` (candidate_enricher.py
lines 89-115): the top 3 work-experience entries are looked up. -/
def runWebSearch (oracle : String → SearchOutcome) (cand : EnrichCandidate)
    (st : EnricherState) : List (String × CompanyResult) × EnricherState :=
  (cand.workCompanies.take 3).foldl (runWebSearchStep oracle) ([], st)

/-- Embeds `CandidateEnricher._run_github_analysis` (candidate_enricher.py
lines 117-131): nothing without a GitHub URL; otherwise serve the cache
or call the analyzer once for the URL, storing the result
unconditionally.  The analysis payload is opaque here (`goracle`). -/
def runGithub (goracle : String → String) (cand : EnrichCandidate)
    (st : EnricherState) : Option String × EnricherState :=
  match cand.githubUrl with
  | none => (none, st)
  | some url =>
    match lookupA st.githubCache url with
    | some r => (some r, st)
    | none =>
      (some (goracle url),
       { st with
          githubCache := st.githubCache ++ [(url, goracle url)],
          githubCalls := st.githubCalls ++ [url] })

/-- Embeds one iteration of the skill loop of
`CandidateEnricher._run_skill_taxonomy` (candidate_enricher.py lines
142-151): the cache key is the lowercased skill; on a miss
`find_related_skills` is invoked with the original-cased skill and the
result stored under the lowercased key. -/
def runSkillTaxonomyStep (soracle : String → String)
    (acc : List (String × String) × EnricherState) (skill : String) :
    List (String × String) × EnricherState :=
  match lookupA acc.2.skillsCache (lowerStr skill) with
  | some r => (acc.1 ++ [(skill, r)], acc.2)
  | none =>
    (acc.1 ++ [(skill, soracle skill)],
     { acc.2 with
        skillsCache := acc.2.skillsCache ++ [(lowerStr skill, soracle skill)],
        skillCalls := acc.2.skillCalls ++ [skill] })

/-- Embeds `CandidateEnricher._run_skill_taxonomy` (candidate_enricher.py
lines 133-153): the top 10 skills are looked up. -/
def runSkillTaxonomy (soracle : String → String) (cand : EnrichCandidate)
    (st : EnricherState) : List (String × String) × EnricherState :=
  (cand.technicalSkills.take 10).foldl (runSkillTaxonomyStep soracle) ([], st)

/-- The aggregate `enrich_candidates` returns (candidate_enricher.py
lines 83-87). -/
structure EnrichmentData where
  company_verifications : List (String × List (String × CompanyResult))
  github_analyses : List (String × String)
  skill_taxonomy_data : List (String × List (String × String))
  deriving Repr, DecidableEq

/-- `tool_plan.get(candidate_name, {}).get("tools", [])`
(candidate_enricher.py lines 50-51). -/
def plannedTools (toolPlan : List (String × ToolPlanEntry)) (name : String) :
    List String :=
  match lookupA toolPlan name with
  | some p => p.tools
  | none => []

/-- The `web_search` branch of the per-candidate loop
(candidate_enricher.py lines 60-63): run the company lookups and record
a non-empty payload under the candidate's name. -/
def webPhase (oracle : String → SearchOutcome) (tools : List String)
    (acc : EnrichmentData × EnricherState) (cand : EnrichCandidate) :
    EnrichmentData × EnricherState :=
  if "web_search" ∈ tools then
    (if (runWebSearch oracle cand acc.2).1.isEmpty then acc.1
     else { acc.1 with
              company_verifications :=
                acc.1.company_verifications
                  ++ [(cand.name, (runWebSearch oracle cand acc.2).1)] },
     (runWebSearch oracle cand acc.2).2)
  else acc

/-- The `github` branch of the per-candidate loop
(candidate_enricher.py lines 66-69). -/
def githubPhase (goracle : String → String) (tools : List String)
    (acc : EnrichmentData × EnricherState) (cand : EnrichCandidate) :
    EnrichmentData × EnricherState :=
  if "github" ∈ tools then
    (match (runGithub goracle cand acc.2).1 with
     | some g =>
        { acc.1 with github_analyses := acc.1.github_analyses ++ [(cand.name, g)] }
     | none => acc.1,
     (runGithub goracle cand acc.2).2)
  else acc

/-- The `skill_taxonomy` branch of the per-candidate loop
(candidate_enricher.py lines 72-75). -/
def skillPhase (soracle : String → String) (tools : List String)
    (acc : EnrichmentData × EnricherState) (cand : EnrichCandidate) :
    EnrichmentData × EnricherState :=
  if "skill_taxonomy" ∈ tools then
    (if (runSkillTaxonomy soracle cand acc.2).1.isEmpty then acc.1
     else { acc.1 with
              skill_taxonomy_data :=
                acc.1.skill_taxonomy_data
                  ++ [(cand.name, (runSkillTaxonomy soracle cand acc.2).1)] },
     (runSkillTaxonomy soracle cand acc.2).2)
  else acc

/-- Embeds the per-candidate body of `CandidateEnricher.enrich_candidates`
(candidate_enricher.py lines 46-75): read the candidate's tool plan
(empty when absent), skip the candidate when no tools are planned, and
run each planned tool in order. -/
def enrichOneCandidate (oracle : String → SearchOutcome)
    (goracle soracle : String → String) (toolPlan : List (String × ToolPlanEntry))
    (acc : EnrichmentData × EnricherState) (cand : EnrichCandidate) :
    EnrichmentData × EnricherState :=
  if (plannedTools toolPlan cand.name).isEmpty then acc
  else
    skillPhase soracle (plannedTools toolPlan cand.name)
      (githubPhase goracle (plannedTools toolPlan cand.name)
        (webPhase oracle (plannedTools toolPlan cand.name) acc cand) cand) cand

/-- Embeds `CandidateEnricher.enrich_candidates` over the whole
candidate list starting from the fresh per-run enricher
(candidate_enricher.py lines 25-87 and 156-172). -/
def enrichCandidates (oracle : String → SearchOutcome)
    (goracle soracle : String → String) (cands : List EnrichCandidate)
    (toolPlan : List (String × ToolPlanEntry)) : EnrichmentData × EnricherState :=
  cands.foldl (enrichOneCandidate oracle goracle soracle toolPlan)
    (⟨[], [], []⟩, initEnricherState)

/-! ## Theorems: router and quality gate -/

theorem shouldReanalyze_eq_reanalyze_iff (needs : Bool) (count : Nat) :
    shouldReanalyze needs count = Route.reanalyze ↔ needs = true ∧ count < 2 := by
  unfold shouldReanalyze
  cases needs with
  | false => simp
  | true =>
    by_cases h : count < 2
    · simp [h]
    · simp [h]

theorem shouldReanalyze_needs_false (count : Nat) :
    shouldReanalyze false count = Route.cont := by
  simp [shouldReanalyze]

theorem checkQualityNeeds_true_elim {conf : ℚ} {count : Nat}
    (h : checkQualityNeeds conf count = true) :
    conf < confidenceThreshold ∧ count < 2 := by
  unfold checkQualityNeeds at h
  constructor
  · exact of_decide_eq_true (Bool.and_elim_left h)
  · exact of_decide_eq_true (Bool.and_elim_right h)

theorem qualityLoopCount_le_sub (confs : List ℚ) :
    ∀ count : Nat, qualityLoopCount confs count ≤ 2 - count := by
  induction confs with
  | nil => intro count; simp [qualityLoopCount]
  | cons conf rest ih =>
    intro count
    cases hneeds : checkQualityNeeds conf count with
    | false =>
      simp [qualityLoopCount, hneeds, qualityCheckerCount, shouldReanalyze]
    | true =>
      have h2 : count < 2 := (checkQualityNeeds_true_elim hneeds).2
      by_cases h2' : count + 1 < 2
      · have hroute :
            shouldReanalyze true (count + 1) = Route.reanalyze := by
          simp [shouldReanalyze, h2']
        simp only [qualityLoopCount, hneeds, qualityCheckerCount, if_pos, hroute]
        have := ih (count + 1)
        omega
      · have hroute : shouldReanalyze true (count + 1) = Route.cont := by
          simp [shouldReanalyze, h2']
        simp only [qualityLoopCount, hneeds, qualityCheckerCount, if_pos, hroute]
        omega

/-- C1: the quality-gate loop fires at most twice: the router returns the
`reanalyze` label exactly when the verdict's `needs_reanalysis` flag is
true and the retry counter is strictly below 2, on every evaluation with
counter at least 2 it returns `continue` regardless of the verdict, and
over any run of the enhanced pipeline (any stream of confidence values)
the number of triggered reanalyses is at most 2. -/
theorem c1_retry_loop_fires_at_most_twice :
    (∀ (needs : Bool) (count : Nat),
        shouldReanalyze needs count = Route.reanalyze ↔ needs = true ∧ count < 2) ∧
    (∀ (needs : Bool) (count : Nat), 2 ≤ count → shouldReanalyze needs count = Route.cont) ∧
    (∀ confs : List ℚ, qualityLoopCount confs 0 ≤ 2) := by
  refine ⟨shouldReanalyze_eq_reanalyze_iff, ?_, ?_⟩
  · intro needs count h
    unfold shouldReanalyze
    have : ¬ count < 2 := by omega
    simp [this]
  · intro confs
    simpa using qualityLoopCount_le_sub confs 0

/-- Witness for C1 at a concrete input: with the counter at 2 the router
selects `continue` even though the verdict requests a rerun. -/
theorem c1_retry_loop_fires_at_most_twice_witness :
    shouldReanalyze true 2 = Route.cont :=
  c1_retry_loop_fires_at_most_twice.2.1 true 2 (by decide)

/-! ## Theorems: ranking (C3) -/

theorem insertByScore_perm (x : CandidateTotal) (ys : List CandidateTotal) :
    (insertByScore x ys).Perm (x :: ys) := by
  induction ys with
  | nil => exact List.Perm.refl _
  | cons y ys ih =>
    unfold insertByScore
    by_cases h : y.total_score ≤ x.total_score
    · rw [if_pos h]
    · rw [if_neg h]
      exact (ih.cons y).trans (List.Perm.swap x y ys)

theorem mem_insertByScore {x z : CandidateTotal} {ys : List CandidateTotal}
    (h : z ∈ insertByScore x ys) : z = x ∨ z ∈ ys := by
  have := (insertByScore_perm x ys).mem_iff.mp h
  exact List.mem_cons.mp this

theorem insertByScore_sorted {x : CandidateTotal} {ys : List CandidateTotal}
    (h : ys.Pairwise (fun p q => q.total_score ≤ p.total_score)) :
    (insertByScore x ys).Pairwise (fun p q => q.total_score ≤ p.total_score) := by
  induction ys with
  | nil => simp [insertByScore]
  | cons y ys ih =>
    rcases List.pairwise_cons.mp h with ⟨hy, hys⟩
    unfold insertByScore
    by_cases hle : y.total_score ≤ x.total_score
    · rw [if_pos hle]
      refine List.pairwise_cons.mpr ⟨?_, h⟩
      intro z hz
      rcases List.mem_cons.mp hz with rfl | hz'
      · exact hle
      · exact le_trans (hy z hz') hle
    · rw [if_neg hle]
      refine List.pairwise_cons.mpr ⟨?_, ih hys⟩
      intro z hz
      rcases mem_insertByScore hz with rfl | hz'
      · exact le_of_lt (lt_of_not_le hle)
      · exact hy z hz'

theorem sortByScoreDesc_perm (l : List CandidateTotal) :
    (sortByScoreDesc l).Perm l := by
  induction l with
  | nil => exact List.Perm.refl _
  | cons x xs ih =>
    exact (insertByScore_perm x (sortByScoreDesc xs)).trans (ih.cons x)

theorem sortByScoreDesc_sorted (l : List CandidateTotal) :
    (sortByScoreDesc l).Pairwise (fun p q => q.total_score ≤ p.total_score) := by
  induction l with
  | nil => simp [sortByScoreDesc]
  | cons x xs ih => exact insertByScore_sorted ih

theorem attachRanks_map_fst (l : List CandidateTotal) :
    ∀ r : Nat, (attachRanks r l).map Prod.fst = List.range' r l.length := by
  induction l with
  | nil => intro r; simp [attachRanks]
  | cons s ss ih =>
    intro r
    simp [attachRanks, List.range'_succ, ih (r + 1)]

theorem filter_insertByScore (q : ℚ) (x : CandidateTotal) (ys : List CandidateTotal) :
    (insertByScore x ys).filter (fun s => decide (s.total_score = q))
      = if x.total_score = q
        then x :: ys.filter (fun s => decide (s.total_score = q))
        else ys.filter (fun s => decide (s.total_score = q)) := by
  induction ys with
  | nil =>
    by_cases hx : x.total_score = q <;> simp [insertByScore, hx]
  | cons y ys ih =>
    unfold insertByScore
    by_cases hle : y.total_score ≤ x.total_score
    · rw [if_pos hle]
      by_cases hx : x.total_score = q <;> simp [List.filter_cons, hx]
    · rw [if_neg hle]
      have hxy : x.total_score < y.total_score := lt_of_not_le hle
      by_cases hx : x.total_score = q
      · have hy : ¬ y.total_score = q := by
          intro hy
          exact absurd (hy.trans hx.symm) (ne_of_gt hxy)
        simp [List.filter_cons, hy, ih, hx]
      · by_cases hy : y.total_score = q <;>
          simp [List.filter_cons, hy, ih, hx]

theorem filter_sortByScoreDesc (q : ℚ) (l : List CandidateTotal) :
    (sortByScoreDesc l).filter (fun s => decide (s.total_score = q))
      = l.filter (fun s => decide (s.total_score = q)) := by
  induction l with
  | nil => rfl
  | cons x xs ih =>
    show (insertByScore x (sortByScoreDesc xs)).filter _ = _
    rw [filter_insertByScore]
    by_cases hx : x.total_score = q <;> simp [List.filter_cons, hx, ih]

/-- C3: the ranked list produced by the scoring stage is sorted by total
score in descending order, its entries are a permutation of the input
scores, ranks 1..n are assigned in that order, and the sort is stable:
for every score value, the candidates carrying that value appear in
their original parse order. -/
theorem c3_ranked_list_sorted_ranks_stable (scores : List CandidateTotal) :
    (sortByScoreDesc scores).Pairwise (fun p q => q.total_score ≤ p.total_score) ∧
    (sortByScoreDesc scores).Perm scores ∧
    (scoreAndRankCandidates scores).map Prod.fst = List.range' 1 scores.length ∧
    ∀ q : ℚ, (sortByScoreDesc scores).filter (fun s => decide (s.total_score = q))
        = scores.filter (fun s => decide (s.total_score = q)) := by
  refine ⟨sortByScoreDesc_sorted scores, sortByScoreDesc_perm scores, ?_,
    fun q => filter_sortByScoreDesc q scores⟩
  unfold scoreAndRankCandidates
  rw [attachRanks_map_fst, (sortByScoreDesc_perm scores).length_eq]

/-! ## Theorems: merge engine fail-fast (C2) -/

theorem find?_schema_none {schema : List SchemaField} {k : String}
    (h : ¬ k ∈ schemaKeys schema) :
    List.find? (fun f => f.name == k) schema = none := by
  apply List.find?_eq_none.mpr
  intro f hf
  simp only [beq_iff_eq]
  intro hk
  exact h (List.mem_map.mpr ⟨f, hf, hk⟩)

theorem specApply_error_of_unknown_key (schema : List SchemaField)
    (st upd : StateMap) (h : ∃ kv ∈ upd, ¬ kv.1 ∈ schemaKeys schema) :
    ∃ e, specApply schema st upd = Except.error e := by
  induction upd generalizing st with
  | nil =>
    rcases h with ⟨kv, hmem, -⟩
    exact absurd hmem (List.not_mem_nil kv)
  | cons kv rest ih =>
    rcases h with ⟨kv', hmem, hnot⟩
    rcases List.mem_cons.mp hmem with rfl | hmem'
    · refine ⟨"schema violation: unknown key " ++ kv'.1, ?_⟩
      unfold specApply
      rw [find?_schema_none hnot]
    · cases hfind : List.find? (fun f => f.name == kv.1) schema with
      | none =>
        refine ⟨"schema violation: unknown key " ++ kv.1, ?_⟩
        unfold specApply
        rw [hfind]
      | some f =>
        rcases ih (mergeField st kv f.rule) ⟨kv', hmem', hnot⟩ with ⟨e, he⟩
        refine ⟨e, ?_⟩
        unfold specApply
        rw [hfind]
        exact he

/-- C2: under the spec's merge-engine contract, a stage update holding a
key the schema does not declare makes the merge fail fast with an error
rather than silently dropping the key; the keys `quality_check` and
`reanalysis_count` returned by the quality-checker stage are absent from
the `AgentState` schema, so merging the quality checker's partial state
aborts the run. -/
theorem c2_unknown_key_fails_fast :
    (∀ (schema : List SchemaField) (st upd : StateMap),
        (∃ kv ∈ upd, ¬ kv.1 ∈ schemaKeys schema) →
        ∃ e, specApply schema st upd = Except.error e) ∧
    (¬ "quality_check" ∈ schemaKeys agentStateSchema) ∧
    (¬ "reanalysis_count" ∈ schemaKeys agentStateSchema) ∧
    (∀ (st : StateMap) (qc rc cs : List String),
        specApply agentStateSchema st (qualityCheckerUpdate qc rc cs)
          = Except.error "schema violation: unknown key quality_check") := by
  refine ⟨specApply_error_of_unknown_key, by decide, by decide, ?_⟩
  intro st qc rc cs
  rfl

/-- Witness for C2 at a concrete input: merging the partial state
`{quality_check: []}` into the empty state fails. -/
theorem c2_unknown_key_fails_fast_witness :
    ∃ e, specApply agentStateSchema [] [("quality_check", [])] = Except.error e :=
  c2_unknown_key_fails_fast.1 agentStateSchema [] [("quality_check", [])]
    ⟨("quality_check", []), by decide, by decide⟩

/-- C10: when the self-reflection LLM call raises, the fallback sets the
overall confidence to exactly 0.7; since the rerun condition requires
confidence strictly below the 0.7 threshold, the verdict computed from
the fallback never requests reanalysis, and the router then selects
`continue` for every value of the retry counter. -/
theorem c10_reflection_failure_routes_continue :
    (llmSelfReflection ReflectOutcome.exn).overall_confidence = 7/10 ∧
    (∀ count : Nat,
      checkQualityNeeds (llmSelfReflection ReflectOutcome.exn).overall_confidence count
        = false) ∧
    (∀ count : Nat,
      shouldReanalyze
        (checkQualityNeeds (llmSelfReflection ReflectOutcome.exn).overall_confidence count)
        (qualityCheckerCount
          (checkQualityNeeds (llmSelfReflection ReflectOutcome.exn).overall_confidence count)
          count)
        = Route.cont) := by
  have hconf : (llmSelfReflection ReflectOutcome.exn).overall_confidence = 7/10 := rfl
  have hneeds : ∀ count : Nat,
      checkQualityNeeds (llmSelfReflection ReflectOutcome.exn).overall_confidence count
        = false := by
    intro count
    rw [hconf]
    unfold checkQualityNeeds confidenceThreshold
    simp
  refine ⟨hconf, hneeds, ?_⟩
  intro count
  rw [hneeds count]
  exact shouldReanalyze_needs_false _

/-! ## Theorems: tool coordinator (C4) -/

/-- C4: for every response of the tool-selection decision function —
including malformed or arbitrary parsed plans and the failure-fallback
path — every tool identifier stored in the candidate's plan belongs to
the fixed enumeration {web_search, github, skill_taxonomy}. -/
theorem c4_tool_plan_subset_of_enumeration (outcome : PlanOutcome) (t : String)
    (h : t ∈ (decideToolsForCandidate outcome).tools) : t ∈ validTools := by
  cases outcome with
  | ok p =>
    rcases List.mem_filter.mp h with ⟨-, hp⟩
    exact of_decide_eq_true hp
  | exn =>
    have ht : t = "skill_taxonomy" := List.mem_singleton.mp h
    rw [ht]
    decide

/-- Witness for C4 at a concrete input: a parsed plan holding the rogue
identifier `"sudo"` still stores only enumerated tools. -/
theorem c4_tool_plan_subset_of_enumeration_witness : "github" ∈ validTools :=
  c4_tool_plan_subset_of_enumeration
    (PlanOutcome.ok ⟨["github", "sudo"], "r", "high"⟩) "github" (by decide)

/-! ## Theorems: CLI entry validation (C7) -/

/-- C7: when the job-description file is missing or no candidate
document could be loaded, the CLI entry point fails with a fatal error
before the graph is ever invoked, so no stage runs and no partial state
is produced. -/
theorem c7_missing_input_fails_before_pipeline (jobFileExists : Bool)
    (jobText : String) (resumeArgs : List ResumeFile)
    (h : jobFileExists = false ∨ resumeArgs.filter (fun p => p.fileExists) = []) :
    ∃ e, mainPrepare jobFileExists jobText resumeArgs = Except.error e := by
  rcases h with h | h
  · exact ⟨CliError.jobFileNotFound, by simp [mainPrepare, h]⟩
  · cases jobFileExists with
    | false => exact ⟨CliError.jobFileNotFound, by simp [mainPrepare]⟩
    | true =>
      refine ⟨CliError.noValidResumes, ?_⟩
      simp [mainPrepare, loadResumes, h]

/-- Witness for C7 at a concrete input: one `--resumes` path that does
not exist on disk aborts the run before the pipeline starts. -/
theorem c7_missing_input_fails_before_pipeline_witness :
    ∃ e, mainPrepare true "Job text" [⟨"cv.pdf", false, ""⟩] = Except.error e :=
  c7_missing_input_fails_before_pipeline true "Job text" [⟨"cv.pdf", false, ""⟩]
    (Or.inr (by decide))

/-! ## Theorems: fallback matching scenario (C8) -/

theorem round1_add_twenty (x : ℚ) : round1 (x + 20) = round1 x + 20 := by
  unfold round1
  have h : (x + 20) * 10 = x * 10 + (200 : ℤ) := by push_cast; ring
  rw [h, round_add_int]
  push_cast
  ring

theorem totalScore_forty_eq (e d : ℚ) : totalScore 40 e d = totalScore 0 e d + 20 := by
  unfold totalScore
  have h : (40 : ℚ) * skillWeight + e * experienceWeight + d * educationWeight
      = (0 * skillWeight + e * experienceWeight + d * educationWeight) + 20 := by
    unfold skillWeight experienceWeight educationWeight
    ring
  rw [h, round1_add_twenty]

theorem scoreAndRank_pair (a b : CandidateTotal) (h : b.total_score ≤ a.total_score) :
    scoreAndRankCandidates [a, b] = [(1, a), (2, b)] := by
  simp [scoreAndRankCandidates, sortByScoreDesc, insertByScore, h, attachRanks]

/-- C8: for a job with must-have skills {Python, TensorFlow}, candidate
A with skills {Python, PyTorch} and candidate B with skills
{Java, Spring}, the basic fallback exact-string matcher yields a
must-have match of 1/2 (50%) for A and 0/2 (0%) for B, and the
subsequent ranking (whatever their shared experience and education
component scores `e` and `d`) places A above B. -/
theorem c8_scenario_fallback_match_and_ranking (e d : ℚ) :
    (fallbackMatching ["Python", "PyTorch"] ["Python", "TensorFlow"]).matched_must_have
        = ["Python"] ∧
    (fallbackMatching ["Python", "PyTorch"] ["Python", "TensorFlow"]).must_have_match_percentage
        = 50 ∧
    (fallbackMatching ["Java", "Spring"] ["Python", "TensorFlow"]).matched_must_have
        = [] ∧
    (fallbackMatching ["Java", "Spring"] ["Python", "TensorFlow"]).must_have_match_percentage
        = 0 ∧
    scoreAndRankCandidates
        [⟨"Candidate A",
          totalScore (fallbackMatching ["Python", "PyTorch"] ["Python", "TensorFlow"]).overall_skill_score e d⟩,
         ⟨"Candidate B",
          totalScore (fallbackMatching ["Java", "Spring"] ["Python", "TensorFlow"]).overall_skill_score e d⟩]
      = [(1, ⟨"Candidate A", totalScore 40 e d⟩),
         (2, ⟨"Candidate B", totalScore 0 e d⟩)] := by
  have hAeq : fallbackMatching ["Python", "PyTorch"] ["Python", "TensorFlow"]
      = ⟨["Python"], ["TensorFlow"],
         round1 (((1:ℕ):ℚ) / ((2:ℕ):ℚ) * 100),
         round1 ((((1:ℕ):ℚ) / ((2:ℕ):ℚ) * 100) * (8/10))⟩ := rfl
  have hBeq : fallbackMatching ["Java", "Spring"] ["Python", "TensorFlow"]
      = ⟨[], ["Python", "TensorFlow"],
         round1 (((0:ℕ):ℚ) / ((2:ℕ):ℚ) * 100),
         round1 ((((0:ℕ):ℚ) / ((2:ℕ):ℚ) * 100) * (8/10))⟩ := rfl
  have h50 : round1 (((1:ℕ):ℚ) / ((2:ℕ):ℚ) * 100) = 50 := by
    norm_num [round1, round_eq]
  have h40 : round1 ((((1:ℕ):ℚ) / ((2:ℕ):ℚ) * 100) * (8/10)) = 40 := by
    norm_num [round1, round_eq]
  have h0 : round1 (((0:ℕ):ℚ) / ((2:ℕ):ℚ) * 100) = 0 := by
    norm_num [round1, round_eq]
  have h0' : round1 ((((0:ℕ):ℚ) / ((2:ℕ):ℚ) * 100) * (8/10)) = 0 := by
    norm_num [round1, round_eq]
  refine ⟨by rw [hAeq], by rw [hAeq]; exact h50, by rw [hBeq], by rw [hBeq]; exact h0, ?_⟩
  rw [hAeq, hBeq]
  simp only [h40, h0']
  have hle : totalScore 0 e d ≤ totalScore 40 e d := by
    rw [totalScore_forty_eq]
    linarith
  exact scoreAndRank_pair _ _ hle

/-! ## Theorems: near-empty documents (C9) -/

/-- C9: for every candidate document whose extracted text is absent or
shorter than 100 characters, the parsing stage substitutes the explicit
placeholder candidate named `Unknown (<filename>)` for that document,
and the run continues: the node still emits one candidate per
document. -/
theorem c9_near_empty_text_yields_placeholder
    (docs : List (Option String × String × ParseOutcome)) :
    (resumeParserNode docs).length = docs.length ∧
    ∀ (i : Nat) (doc : Option String × String × ParseOutcome),
      docs[i]? = some doc →
      (doc.1 = none ∨ ∃ t, doc.1 = some t ∧ t.length < 100) →
      (resumeParserNode docs)[i]? = some (createEmptyCandidate doc.2.1) := by
  constructor
  · simp [resumeParserNode]
  · intro i doc hget hcond
    have hmap : (resumeParserNode docs)[i]?
        = (docs[i]?).map (fun dd => parseDocument dd.1 dd.2.1 dd.2.2) := by
      simp [resumeParserNode]
    rw [hmap, hget]
    rcases hcond with hnone | ⟨t, ht, hlen⟩
    · simp [parseDocument, hnone]
    · simp [parseDocument, ht, hlen]

/-- Witness for C9 at a concrete input: a document whose extracted text
is 10 characters long becomes the placeholder `Unknown (cv.pdf)`. -/
theorem c9_near_empty_text_yields_placeholder_witness :
    (resumeParserNode [(some "short text", "cv.pdf", ParseOutcome.exn)])[0]?
      = some (createEmptyCandidate "cv.pdf") :=
  (c9_near_empty_text_yields_placeholder
      [(some "short text", "cv.pdf", ParseOutcome.exn)]).2 0
    (some "short text", "cv.pdf", ParseOutcome.exn) rfl
    (Or.inr ⟨"short text", rfl, by decide⟩)

/-! ## Theorems: enrichment cache (C5, C6) -/

theorem lookupA_append_of_isSome {α : Type} {l : List (String × α)}
    (m : List (String × α)) {k : String} (h : (lookupA l k).isSome) :
    lookupA (l ++ m) k = lookupA l k := by
  induction l with
  | nil => simp [lookupA] at h
  | cons p l ih =>
    by_cases hp : p.1 = k
    · simp [lookupA, hp]
    · simp only [lookupA, hp, if_false, List.cons_append, if_neg] at h ⊢
      exact ih h

theorem isSome_lookupA_append {α : Type} {l : List (String × α)}
    (m : List (String × α)) {k : String} (h : (lookupA l k).isSome) :
    (lookupA (l ++ m) k).isSome := by
  rw [lookupA_append_of_isSome m h]
  exact h

theorem lookupA_append_self {α : Type} {l : List (String × α)} {k : String}
    {v : α} (h : lookupA l k = none) : lookupA (l ++ [(k, v)]) k = some v := by
  induction l with
  | nil => simp [lookupA]
  | cons p l ih =>
    by_cases hp : p.1 = k
    · simp [lookupA, hp] at h
    · simp only [lookupA, hp, if_false, List.cons_append, if_neg] at h ⊢
      exact ih h

/-- Web-search memoization invariant: no company name was handed to the
external search twice, and every name already searched is present in the
run-scoped companies cache. -/
def WebInv (st : EnricherState) : Prop :=
  st.web.calls.Nodup ∧ ∀ k ∈ st.web.calls, (lookupA st.companiesCache k).isSome

/-- GitHub memoization invariant, analogous to `WebInv`. -/
def GithubInv (st : EnricherState) : Prop :=
  st.githubCalls.Nodup ∧ ∀ k ∈ st.githubCalls, (lookupA st.githubCache k).isSome

/-- Skill-taxonomy memoization invariant: per lowercased key. -/
def SkillInv (st : EnricherState) : Prop :=
  (st.skillCalls.map lowerStr).Nodup ∧
    ∀ k ∈ st.skillCalls, (lookupA st.skillsCache (lowerStr k)).isSome

/-- The full memoization invariant of the enrichment run. -/
def EnrichInv (st : EnricherState) : Prop :=
  WebInv st ∧ GithubInv st ∧ SkillInv st

theorem searchCompany_state (oracle : String → SearchOutcome) (name : String)
    (ws : WebSearchState) :
    (searchCompany oracle name ws).2 = ws ∨
    ((searchCompany oracle name ws).2.calls = ws.calls ++ [name]) := by
  unfold searchCompany
  cases lookupA ws.toolCache ("company:" ++ lowerStr name) with
  | some r => exact Or.inl rfl
  | none =>
    cases oracle name with
    | results body => exact Or.inr rfl
    | empty => exact Or.inr rfl
    | err msg => exact Or.inr rfl

theorem enrichInv_webStep (oracle : String → SearchOutcome)
    (acc : List (String × CompanyResult) × EnricherState) (c : Option String)
    (h : EnrichInv acc.2) : EnrichInv (runWebSearchStep oracle acc c).2 := by
  cases c with
  | none => exact h
  | some name =>
    cases hc : lookupA acc.2.companiesCache name with
    | some r =>
      have hstep : runWebSearchStep oracle acc (some name) = (acc.1 ++ [(name, r)], acc.2) := by
        simp only [runWebSearchStep, hc]
      rw [hstep]
      exact h
    | none =>
      have hstep : runWebSearchStep oracle acc (some name)
          = (acc.1 ++ [(name, (searchCompany oracle name acc.2.web).1)],
             { acc.2 with
                companiesCache :=
                  acc.2.companiesCache ++ [(name, (searchCompany oracle name acc.2.web).1)],
                web := (searchCompany oracle name acc.2.web).2 }) := by
        simp only [runWebSearchStep, hc]
      rw [hstep]
      rcases h with ⟨⟨hnd, hmem⟩, hg, hs⟩
      refine ⟨⟨?_, ?_⟩, hg, hs⟩
      · rcases searchCompany_state oracle name acc.2.web with hw | hw
        · rw [hw]
          exact hnd
        · rw [hw]
          apply List.Nodup.append hnd (List.nodup_singleton name)
          intro a ha hb
          rcases List.mem_singleton.mp hb with rfl
          have h1 := hmem a ha
          rw [hc] at h1
          simp at h1
      · intro k hk
        rcases searchCompany_state oracle name acc.2.web with hw | hw
        · rw [hw] at hk
          exact isSome_lookupA_append _ (hmem k hk)
        · rw [hw] at hk
          rcases List.mem_append.mp hk with hk' | hk'
          · exact isSome_lookupA_append _ (hmem k hk')
          · rcases List.mem_singleton.mp hk' with rfl
            rw [lookupA_append_self hc]
            rfl

theorem enrichInv_webFold (oracle : String → SearchOutcome)
    (l : List (Option String)) :
    ∀ acc : List (String × CompanyResult) × EnricherState, EnrichInv acc.2 →
      EnrichInv (l.foldl (runWebSearchStep oracle) acc).2 := by
  induction l with
  | nil => intro acc h; exact h
  | cons c l ih => intro acc h; exact ih _ (enrichInv_webStep oracle acc c h)

theorem enrichInv_runWebSearch (oracle : String → SearchOutcome)
    (cand : EnrichCandidate) (st : EnricherState) (h : EnrichInv st) :
    EnrichInv (runWebSearch oracle cand st).2 :=
  enrichInv_webFold oracle _ ([], st) h

theorem enrichInv_runGithub (goracle : String → String) (cand : EnrichCandidate)
    (st : EnricherState) (h : EnrichInv st) :
    EnrichInv (runGithub goracle cand st).2 := by
  cases hurl : cand.githubUrl with
  | none =>
    have hstep : runGithub goracle cand st = (none, st) := by
      simp only [runGithub, hurl]
    rw [hstep]
    exact h
  | some url =>
    cases hc : lookupA st.githubCache url with
    | some r =>
      have hstep : runGithub goracle cand st = (some r, st) := by
        simp only [runGithub, hurl, hc]
      rw [hstep]
      exact h
    | none =>
      have hstep : runGithub goracle cand st
          = (some (goracle url),
             { st with
                githubCache := st.githubCache ++ [(url, goracle url)],
                githubCalls := st.githubCalls ++ [url] }) := by
        simp only [runGithub, hurl, hc]
      rw [hstep]
      rcases h with ⟨hw, ⟨hnd, hmem⟩, hs⟩
      refine ⟨hw, ⟨?_, ?_⟩, hs⟩
      · apply List.Nodup.append hnd (List.nodup_singleton url)
        intro a ha hb
        rcases List.mem_singleton.mp hb with rfl
        have h1 := hmem a ha
        rw [hc] at h1
        simp at h1
      · intro k hk
        rcases List.mem_append.mp hk with hk' | hk'
        · exact isSome_lookupA_append _ (hmem k hk')
        · rcases List.mem_singleton.mp hk' with rfl
          rw [lookupA_append_self hc]
          rfl

theorem enrichInv_skillStep (soracle : String → String)
    (acc : List (String × String) × EnricherState) (skill : String)
    (h : EnrichInv acc.2) : EnrichInv (runSkillTaxonomyStep soracle acc skill).2 := by
  cases hc : lookupA acc.2.skillsCache (lowerStr skill) with
  | some r =>
    have hstep : runSkillTaxonomyStep soracle acc skill = (acc.1 ++ [(skill, r)], acc.2) := by
      simp only [runSkillTaxonomyStep, hc]
    rw [hstep]
    exact h
  | none =>
    have hstep : runSkillTaxonomyStep soracle acc skill
        = (acc.1 ++ [(skill, soracle skill)],
           { acc.2 with
              skillsCache := acc.2.skillsCache ++ [(lowerStr skill, soracle skill)],
              skillCalls := acc.2.skillCalls ++ [skill] }) := by
      simp only [runSkillTaxonomyStep, hc]
    rw [hstep]
    rcases h with ⟨hw, hg, ⟨hnd, hmem⟩⟩
    refine ⟨hw, hg, ⟨?_, ?_⟩⟩
    · rw [List.map_append]
      apply List.Nodup.append hnd (List.nodup_singleton (lowerStr skill))
      intro a ha hb
      rcases List.mem_singleton.mp hb with rfl
      rcases List.mem_map.mp ha with ⟨k0, hk0, hlow⟩
      have h1 := hmem k0 hk0
      rw [hlow, hc] at h1
      simp at h1
    · intro k hk
      rcases List.mem_append.mp hk with hk' | hk'
      · exact isSome_lookupA_append _ (hmem k hk')
      · rcases List.mem_singleton.mp hk' with rfl
        rw [lookupA_append_self hc]
        rfl

theorem enrichInv_skillFold (soracle : String → String) (l : List String) :
    ∀ acc : List (String × String) × EnricherState, EnrichInv acc.2 →
      EnrichInv (l.foldl (runSkillTaxonomyStep soracle) acc).2 := by
  induction l with
  | nil => intro acc h; exact h
  | cons c l ih => intro acc h; exact ih _ (enrichInv_skillStep soracle acc c h)

theorem enrichInv_runSkillTaxonomy (soracle : String → String)
    (cand : EnrichCandidate) (st : EnricherState) (h : EnrichInv st) :
    EnrichInv (runSkillTaxonomy soracle cand st).2 :=
  enrichInv_skillFold soracle _ ([], st) h

theorem webPhase_snd (oracle : String → SearchOutcome) (tools : List String)
    (acc : EnrichmentData × EnricherState) (cand : EnrichCandidate) :
    (webPhase oracle tools acc cand).2
      = if "web_search" ∈ tools then (runWebSearch oracle cand acc.2).2 else acc.2 := by
  by_cases h : "web_search" ∈ tools <;> simp [webPhase, h]

theorem githubPhase_snd (goracle : String → String) (tools : List String)
    (acc : EnrichmentData × EnricherState) (cand : EnrichCandidate) :
    (githubPhase goracle tools acc cand).2
      = if "github" ∈ tools then (runGithub goracle cand acc.2).2 else acc.2 := by
  by_cases h : "github" ∈ tools <;> simp [githubPhase, h]

theorem skillPhase_snd (soracle : String → String) (tools : List String)
    (acc : EnrichmentData × EnricherState) (cand : EnrichCandidate) :
    (skillPhase soracle tools acc cand).2
      = if "skill_taxonomy" ∈ tools then (runSkillTaxonomy soracle cand acc.2).2 else acc.2 := by
  by_cases h : "skill_taxonomy" ∈ tools <;> simp [skillPhase, h]

theorem enrichInv_webPhase (oracle : String → SearchOutcome) (tools : List String)
    (acc : EnrichmentData × EnricherState) (cand : EnrichCandidate)
    (h : EnrichInv acc.2) : EnrichInv (webPhase oracle tools acc cand).2 := by
  rw [webPhase_snd]
  by_cases hw : "web_search" ∈ tools
  · rw [if_pos hw]
    exact enrichInv_runWebSearch oracle cand acc.2 h
  · rw [if_neg hw]
    exact h

theorem enrichInv_githubPhase (goracle : String → String) (tools : List String)
    (acc : EnrichmentData × EnricherState) (cand : EnrichCandidate)
    (h : EnrichInv acc.2) : EnrichInv (githubPhase goracle tools acc cand).2 := by
  rw [githubPhase_snd]
  by_cases hw : "github" ∈ tools
  · rw [if_pos hw]
    exact enrichInv_runGithub goracle cand acc.2 h
  · rw [if_neg hw]
    exact h

theorem enrichInv_skillPhase (soracle : String → String) (tools : List String)
    (acc : EnrichmentData × EnricherState) (cand : EnrichCandidate)
    (h : EnrichInv acc.2) : EnrichInv (skillPhase soracle tools acc cand).2 := by
  rw [skillPhase_snd]
  by_cases hw : "skill_taxonomy" ∈ tools
  · rw [if_pos hw]
    exact enrichInv_runSkillTaxonomy soracle cand acc.2 h
  · rw [if_neg hw]
    exact h

theorem enrichInv_one (oracle : String → SearchOutcome)
    (goracle soracle : String → String) (toolPlan : List (String × ToolPlanEntry))
    (acc : EnrichmentData × EnricherState) (cand : EnrichCandidate)
    (h : EnrichInv acc.2) :
    EnrichInv (enrichOneCandidate oracle goracle soracle toolPlan acc cand).2 := by
  unfold enrichOneCandidate
  by_cases h0 : (plannedTools toolPlan cand.name).isEmpty = true
  · rw [if_pos h0]
    exact h
  · rw [if_neg h0]
    exact enrichInv_skillPhase _ _ _ _
      (enrichInv_githubPhase _ _ _ _ (enrichInv_webPhase _ _ _ _ h))

theorem enrichInv_fold (oracle : String → SearchOutcome)
    (goracle soracle : String → String) (toolPlan : List (String × ToolPlanEntry))
    (cands : List EnrichCandidate) :
    ∀ acc : EnrichmentData × EnricherState, EnrichInv acc.2 →
      EnrichInv (cands.foldl (enrichOneCandidate oracle goracle soracle toolPlan) acc).2 := by
  induction cands with
  | nil => intro acc h; exact h
  | cons c l ih =>
    intro acc h
    exact ih _ (enrichInv_one oracle goracle soracle toolPlan acc c h)

/-- C5: within a single run of the enrichment stage, each lookup key is
handed to its external tool at most once across all candidates: each
company name to the web search, each GitHub URL to the profile analyzer,
and each lowercased skill name to the skill taxonomy; a second candidate
sharing a key is served from the run-scoped cache instead. -/
theorem c5_external_lookup_at_most_once_per_key (oracle : String → SearchOutcome)
    (goracle soracle : String → String) (cands : List EnrichCandidate)
    (toolPlan : List (String × ToolPlanEntry)) :
    (∀ k : String,
      (enrichCandidates oracle goracle soracle cands toolPlan).2.web.calls.count k ≤ 1) ∧
    (∀ k : String,
      (enrichCandidates oracle goracle soracle cands toolPlan).2.githubCalls.count k ≤ 1) ∧
    (∀ k : String,
      ((enrichCandidates oracle goracle soracle cands toolPlan).2.skillCalls.map lowerStr).count k
        ≤ 1) := by
  have hinv : EnrichInv (enrichCandidates oracle goracle soracle cands toolPlan).2 := by
    apply enrichInv_fold
    exact ⟨⟨List.nodup_nil, fun k hk => absurd hk (List.not_mem_nil k)⟩,
           ⟨List.nodup_nil, fun k hk => absurd hk (List.not_mem_nil k)⟩,
           ⟨List.nodup_nil, fun k hk => absurd hk (List.not_mem_nil k)⟩⟩
  exact ⟨fun k => List.nodup_iff_count_le_one.mp hinv.1.1 k,
         fun k => List.nodup_iff_count_le_one.mp hinv.2.1.1 k,
         fun k => List.nodup_iff_count_le_one.mp hinv.2.2.1 k⟩

/-- C6 counterexample: two candidates A and B both worked at
"Acme Corp", the external search raises (a timeout) for that name, and
`web_search` is planned for both.  Contrary to the claim, the failure
result IS stored in the run-scoped enrichment cache, exactly one
external call is made for the key across the whole run (B's lookup is
not retried), and B is served the cached failure result. -/
theorem c6_counterexample_failed_lookup_is_cached :
    ((enrichCandidates (fun _ => SearchOutcome.err "timeout") (fun _ => "") (fun _ => "")
        [⟨"A", [some "Acme Corp"], none, []⟩, ⟨"B", [some "Acme Corp"], none, []⟩]
        [("A", ⟨["web_search"], "", "high"⟩), ("B", ⟨["web_search"], "", "high"⟩)]).2.web.calls
      = ["Acme Corp"]) ∧
    (lookupA
        (enrichCandidates (fun _ => SearchOutcome.err "timeout") (fun _ => "") (fun _ => "")
          [⟨"A", [some "Acme Corp"], none, []⟩, ⟨"B", [some "Acme Corp"], none, []⟩]
          [("A", ⟨["web_search"], "", "high"⟩), ("B", ⟨["web_search"], "", "high"⟩)]).2.companiesCache
        "Acme Corp"
      = some ⟨false, "Search error: timeout"⟩) ∧
    (lookupA
        (enrichCandidates (fun _ => SearchOutcome.err "timeout") (fun _ => "") (fun _ => "")
          [⟨"A", [some "Acme Corp"], none, []⟩, ⟨"B", [some "Acme Corp"], none, []⟩]
          [("A", ⟨["web_search"], "", "high"⟩), ("B", ⟨["web_search"], "", "high"⟩)]).1.company_verifications
        "B"
      = some [("Acme Corp", ⟨false, "Search error: timeout"⟩)]) := by
  refine ⟨?_, ?_, ?_⟩ <;> rfl

/-- C6 amended: a failed external company lookup is not stored in the
web-search tool's own cache, but the enricher stores the failure result
in the run-scoped enrichment cache like any other result; consequently a
later candidate sharing the key is served the cached failure result and
no fresh external call is made for it. -/
theorem c6_amended_failure_cached_by_enricher_no_retry
    (oracle : String → SearchOutcome) (name msg : String) (ws : WebSearchState)
    (hmiss : lookupA ws.toolCache ("company:" ++ lowerStr name) = none)
    (hfail : oracle name = SearchOutcome.err msg) :
    ((searchCompany oracle name ws).1 = ⟨false, "Search error: " ++ msg⟩) ∧
    ((searchCompany oracle name ws).2.toolCache = ws.toolCache) ∧
    ((searchCompany oracle name ws).2.calls = ws.calls ++ [name]) ∧
    (∀ acc : List (String × CompanyResult) × EnricherState,
      lookupA acc.2.companiesCache name = none →
      lookupA (runWebSearchStep oracle acc (some name)).2.companiesCache name
        = some (searchCompany oracle name acc.2.web).1) ∧
    (∀ (acc : List (String × CompanyResult) × EnricherState) (r : CompanyResult),
      lookupA acc.2.companiesCache name = some r →
      runWebSearchStep oracle acc (some name) = (acc.1 ++ [(name, r)], acc.2)) := by
  refine ⟨?_, ?_, ?_, ?_, ?_⟩
  · unfold searchCompany
    rw [hmiss, hfail]
  · unfold searchCompany
    rw [hmiss, hfail]
  · unfold searchCompany
    rw [hmiss, hfail]
  · intro acc hacc
    have hstep : runWebSearchStep oracle acc (some name)
        = (acc.1 ++ [(name, (searchCompany oracle name acc.2.web).1)],
           { acc.2 with
              companiesCache :=
                acc.2.companiesCache ++ [(name, (searchCompany oracle name acc.2.web).1)],
              web := (searchCompany oracle name acc.2.web).2 }) := by
      simp only [runWebSearchStep, hacc]
    rw [hstep]
    exact lookupA_append_self hacc
  · intro acc r hacc
    simp only [runWebSearchStep, hacc]

/-- Witness for the amended C6 at a concrete input: a timed-out lookup
for "Acme Corp" yields the explicit error result and is not cached at
tool level. -/
theorem c6_amended_failure_cached_by_enricher_no_retry_witness :
    (searchCompany (fun _ => SearchOutcome.err "timeout") "Acme Corp" ⟨[], []⟩).1
      = ⟨false, "Search error: " ++ "timeout"⟩ :=
  (c6_amended_failure_cached_by_enricher_no_retry
      (fun _ => SearchOutcome.err "timeout") "Acme Corp" "timeout" ⟨[], []⟩ rfl rfl).1

end ResumeScreening
